import Mathlib

/-!
Verification of the watch-dog monitor-analysis core.

This file shallowly embeds the analytics engine of the repository:
the rolling-window aggregator (`calculateRollingAggregation` in
rollup-calculator.js), the statistics summarizer (`calculateStatistics`),
the breach detector (`analyzeThresholdBreaches`), the breach-list
de-duplication in `analyseMonitor`, the volatility score computed in
`combineHighResData`, and the strategy/threshold selection of
`generateRecommendations` (all in analyse-monitor.js).

Modelling conventions:
- JavaScript numbers are modelled as exact rationals `ℚ`; timestamps as `ℤ`
  (millisecond epoch values).  Floating-point rounding of IEEE doubles is
  not modelled (the repository itself documents that it only reproduces the
  windowing semantics, not exact FP evaluation).
- A sample value that is `null`/`undefined`/`NaN` in JS is modelled as
  `none : Option ℚ`; the aggregator only ever filters such values out.
- The computations of analyse-monitor.js that can receive `undefined`
  record fields or produce `NaN`/`Infinity` (statistics of an empty list,
  the volatility score, recommendation thresholds) are modelled over a
  small JS-value domain `JSV` with explicit `nan`, `posInf`, `negInf`
  and `undef` points and JS coercion/arithmetic rules.
- `Math.round x` is `⌊x + 1/2⌋` (JS rounds half-up, also for negatives).
- `Math.round (Math.sqrt q)` for a rational `q ≥ 0` is the nearest integer
  to the real square root; it is computed exactly by `jsRoundSqrtQ` using
  the integer square root `isqrt` (proved correct below), without ever
  forming the irrational intermediate value.
-/

/- Batteries marks the arithmetic of `Rat` irreducible for the elaborator;
re-allow unfolding locally so that concrete runs of the embedded functions
can be evaluated by `decide` (the kernel re-checks all such evaluations). -/
attribute [local semireducible] Rat.add Rat.mul Rat.inv Rat.sub Rat.ofScientific

/-- Decidable equality of `Except` results (for evaluating the aggregator
on concrete inputs). -/
instance {ε α : Type} [DecidableEq ε] [DecidableEq α] : DecidableEq (Except ε α) :=
  fun a b =>
    match a, b with
    | .ok x, .ok y => if h : x = y then .isTrue (by rw [h]) else .isFalse (by simp [h])
    | .error x, .error y => if h : x = y then .isTrue (by rw [h]) else .isFalse (by simp [h])
    | .ok _, .error _ => .isFalse (by simp)
    | .error _, .ok _ => .isFalse (by simp)

/-! ### A small domain of JavaScript numeric values -/

/-- A JavaScript numeric value as it occurs in the analysis pipeline:
a finite number (exact rational), positive/negative infinity, `NaN`,
or the `undefined` value read from a missing object field. -/
inductive JSV where
  | num (q : ℚ)
  | posInf
  | negInf
  | nan
  | undef
deriving DecidableEq

/-- JS `ToNumber` as applied before arithmetic: `undefined` becomes `NaN`. -/
def JSV.toNum : JSV → JSV
  | .undef => .nan
  | v => v

/-- JS multiplication (as used on the analysis values). -/
def jsMul (x y : JSV) : JSV :=
  match x.toNum, y.toNum with
  | .num a, .num b => .num (a * b)
  | .num a, .posInf => if 0 < a then .posInf else if a < 0 then .negInf else .nan
  | .num a, .negInf => if 0 < a then .negInf else if a < 0 then .posInf else .nan
  | .posInf, .num b => if 0 < b then .posInf else if b < 0 then .negInf else .nan
  | .negInf, .num b => if 0 < b then .negInf else if b < 0 then .posInf else .nan
  | .posInf, .posInf => .posInf
  | .posInf, .negInf => .negInf
  | .negInf, .posInf => .negInf
  | .negInf, .negInf => .posInf
  | _, _ => .nan

/-- JS division: division by (positive) zero yields a signed infinity,
`0/0` yields `NaN` (the repository only divides by values it read from
data, so `-0` never occurs as a divisor). -/
def jsDiv (x y : JSV) : JSV :=
  match x.toNum, y.toNum with
  | .num a, .num b =>
      if b = 0 then (if 0 < a then .posInf else if a < 0 then .negInf else .nan)
      else .num (a / b)
  | .num _, .posInf => .num 0
  | .num _, .negInf => .num 0
  | .posInf, .num b => if 0 ≤ b then .posInf else .negInf
  | .negInf, .num b => if 0 ≤ b then .negInf else .posInf
  | _, _ => .nan

/-- JS `Math.max` of two values: `NaN` (or `undefined`) poisons the result. -/
def jsMax (x y : JSV) : JSV :=
  match x.toNum, y.toNum with
  | .nan, _ => .nan
  | _, .nan => .nan
  | .num a, .num b => .num (max a b)
  | .posInf, _ => .posInf
  | _, .posInf => .posInf
  | .negInf, b => b
  | a, .negInf => a
  | _, _ => .nan

/-- JS `Math.min` of two values: `NaN` (or `undefined`) poisons the result. -/
def jsMin (x y : JSV) : JSV :=
  match x.toNum, y.toNum with
  | .nan, _ => .nan
  | _, .nan => .nan
  | .num a, .num b => .num (min a b)
  | .negInf, _ => .negInf
  | _, .negInf => .negInf
  | .posInf, b => b
  | a, .posInf => a
  | _, _ => .nan

/-- JS `Math.round` on a rational: round half-up, `⌊q + 1/2⌋`. -/
def jsRoundQ (q : ℚ) : ℤ := ⌊q + 1 / 2⌋

/-- JS `Math.round` lifted to `JSV`: infinities are fixed points, `NaN`
(and `undefined`) give `NaN`. -/
def jsRoundV (x : JSV) : JSV :=
  match x.toNum with
  | .num q => .num (jsRoundQ q)
  | .posInf => .posInf
  | .negInf => .negInf
  | _ => .nan

/-- JS strict comparison `x > c` with a finite literal `c`: false whenever
`x` is `NaN` or `undefined` or `-Infinity`. -/
def jsGtQ (x : JSV) (c : ℚ) : Bool :=
  match x.toNum with
  | .num a => decide (c < a)
  | .posInf => true
  | _ => false

/-- Integer square root by downward scan: the largest `k ≤ bound` with
`k * k ≤ n` (and `0` if there is none). -/
def isqrtGo (n : ℕ) : ℕ → ℕ
  | 0 => 0
  | k + 1 => if (k + 1) * (k + 1) ≤ n then k + 1 else isqrtGo n k

/-- Integer square root: the largest `k` with `k * k ≤ n`. -/
def isqrt (n : ℕ) : ℕ := isqrtGo n n

/-- `Math.round (Math.sqrt q)` for a rational `q ≥ 0`, computed exactly:
`s = ⌊√q⌋` and the result is `s + 1` precisely when `√q ≥ s + 1/2`,
i.e. when `s² + s + 1/4 ≤ q`. -/
def jsRoundSqrtQ (q : ℚ) : ℤ :=
  let s : ℤ := (isqrt ⌊q⌋.toNat : ℤ)
  if ((s * s + s : ℤ) : ℚ) + 1 / 4 ≤ q then s + 1 else s

/-- JS `Math.round (Math.sqrt x)` on `JSV` (negative finite input would
give `NaN`; the repository only takes square roots of variances). -/
def jsRoundSqrtV (x : JSV) : JSV :=
  match x.toNum with
  | .num q => if q < 0 then .nan else .num (jsRoundSqrtQ q)
  | .posInf => .posInf
  | _ => .nan

/-- JS `Math.min(...values)` over a non-empty spread list of finite numbers
(`Math.min()` of an empty spread would be `Infinity`; every call site is
guarded by a non-emptiness check, so the `[]` case is unreachable and is
given the junk value `0`). -/
def jsMinList : List ℚ → ℚ
  | [] => 0
  | v :: vs => vs.foldl min v

/-- JS `Math.max(...values)` over a non-empty spread list, dually. -/
def jsMaxList : List ℚ → ℚ
  | [] => 0
  | v :: vs => vs.foldl max v

/-! ### Rolling-window aggregator (rollup-calculator.js) -/

/-- A raw input sample: `{timestamp, value}`.  The value is `none` when the
JS value is `null`/`undefined`/`NaN` (the only distinction the aggregator
ever makes). -/
structure Sample where
  timestamp : ℤ
  value : Option ℚ
deriving DecidableEq

instance : Inhabited Sample := ⟨⟨0, none⟩⟩

/-- One emitted rolling-window point:
`{timestamp, value, windowStart, windowEnd, dataPointsInWindow}`. -/
structure WindowPoint where
  timestamp : ℤ
  value : ℚ
  windowStart : ℤ
  windowEnd : ℤ
  dataPointsInWindow : ℕ
deriving DecidableEq

/-- The two error kinds `calculateRollingAggregation` throws. -/
inductive AggError where
  | invalidParameter
  | invalidAggregationKind
deriving DecidableEq

/-- The five valid aggregation kinds. -/
inductive Agg where
  | avg
  | sum
  | min
  | max
  | count
deriving DecidableEq

/-- The `validAggregations.includes(aggregation)` check of the source,
as a parser from the aggregation string. -/
def parseAggregation : String → Option Agg
  | "avg" => some .avg
  | "sum" => some .sum
  | "min" => some .min
  | "max" => some .max
  | "count" => some .count
  | _ => none

/-- Comparison used by `sort((a, b) => a.timestamp - b.timestamp)`. -/
def sampleLE (a b : Sample) : Prop := a.timestamp ≤ b.timestamp

instance : DecidableRel sampleLE := fun a b => Int.decLe a.timestamp b.timestamp

instance : IsTotal Sample sampleLE := ⟨fun a b => Int.le_total a.timestamp b.timestamp⟩

instance : IsTrans Sample sampleLE := ⟨fun _ _ _ h1 h2 => le_trans h1 h2⟩

/-- The evaluation-cursor sequence of the
`for (currentTime = startTime; currentTime <= lastTimestamp;
currentTime += stepSizeMs)` loop.  `fuel` is a recursion bound; with a
positive step, any `fuel ≥ (lastTimestamp + 1 - startTime).toNat` covers
every iteration of the JS loop (the cursor advances by at least 1 each
time). -/
def cursorList (currentTime lastTimestamp stepSizeMs : ℤ) : ℕ → List ℤ
  | 0 => []
  | fuel + 1 =>
      if currentTime ≤ lastTimestamp then
        currentTime :: cursorList (currentTime + stepSizeMs) lastTimestamp stepSizeMs fuel
      else []

/-- `windowPoints`: all samples in the left-exclusive, right-inclusive
window `(windowStart, windowEnd]`. -/
def windowPointsOf (sortedData : List Sample) (windowStart windowEnd : ℤ) : List Sample :=
  sortedData.filter fun point =>
    decide (windowStart < point.timestamp) && decide (point.timestamp ≤ windowEnd)

/-- `dataSpan`: `windowPoints[windowPoints.length-1].timestamp -
windowPoints[0].timestamp` (call sites guarantee non-emptiness). -/
def dataSpanOf (windowPoints : List Sample) : ℤ :=
  (windowPoints.getLastD default).timestamp - (windowPoints.headD default).timestamp

/-- `values`: the window's sample values with `null`/`undefined`/`NaN`
dropped (`windowPoints.map(p => p.value).filter(v => v !== null && ...)`). -/
def valuesOf (windowPoints : List Sample) : List ℚ :=
  (windowPoints.map fun p => p.value).filterMap id

/-- The `switch (aggregation)` computing `aggregatedValue` (the `default`
branch is unreachable: the kind was validated on entry). -/
def aggregateValue (agg : Agg) (values : List ℚ) : ℚ :=
  match agg with
  | .avg => values.foldl (fun sum val => sum + val) 0 / (values.length : ℚ)
  | .sum => values.foldl (fun sum val => sum + val) 0
  | .min => jsMinList values
  | .max => jsMaxList values
  | .count => (values.length : ℚ)

/-- The body of one cursor iteration of `calculateRollingAggregation`:
returns the pushed `WindowPoint`, or `none` when the iteration `continue`s
(empty window, sparse-window skip, or no valid values).  The sparse-window
guard `windowPoints.length > 0` of the source is omitted because this
branch is only reached when the window is non-empty. -/
def windowResult (sortedData : List Sample) (windowSizeMs : ℤ) (agg : Agg)
    (discardIncompleteWindows : Bool) (currentTime : ℤ) : Option WindowPoint :=
  let windowStart := currentTime - windowSizeMs
  let windowEnd := currentTime
  let windowPoints := windowPointsOf sortedData windowStart windowEnd
  if windowPoints.length = 0 then none
  else if discardIncompleteWindows &&
      decide ((dataSpanOf windowPoints : ℚ) < ((windowEnd - windowStart : ℤ) : ℚ) * 0.25) &&
      decide (windowPoints.length < 3) then none
  else
    let values := valuesOf windowPoints
    if values.length = 0 then none
    else some ⟨currentTime, aggregateValue agg values, windowStart, windowEnd, values.length⟩

/-- `calculateRollingAggregation(dataPoints, windowSizeMs, stepSizeMs,
aggregation, discardIncompleteWindows)` from rollup-calculator.js: validate,
sort by timestamp, step an evaluation cursor and aggregate each window. -/
def calculateRollingAggregation (dataPoints : List Sample) (windowSizeMs stepSizeMs : ℤ)
    (aggregation : String) (discardIncompleteWindows : Bool) :
    Except AggError (List WindowPoint) :=
  if windowSizeMs ≤ 0 ∨ stepSizeMs ≤ 0 then .error .invalidParameter
  else
    match parseAggregation aggregation with
    | none => .error .invalidAggregationKind
    | some agg =>
      if dataPoints.length = 0 then .ok []
      else
        let sortedData := dataPoints.insertionSort sampleLE
        if sortedData.length = 0 then .ok []
        else
          let firstTimestamp := (sortedData.headD default).timestamp
          let lastTimestamp := (sortedData.getLastD default).timestamp
          let startTime :=
            if discardIncompleteWindows then firstTimestamp + windowSizeMs else firstTimestamp
          .ok ((cursorList startTime lastTimestamp stepSizeMs
                  (lastTimestamp + 1 - startTime).toNat).filterMap
                (windowResult sortedData windowSizeMs agg discardIncompleteWindows))

/-! ### Statistics summarizer (`calculateStatistics` in analyse-monitor.js) -/

/-- The distribution summary record.  Every field is a `JSV` because the
source returns the empty object `{}` for an empty input, whose field reads
yield `undefined`. -/
structure Stats where
  min : JSV
  max : JSV
  mean : JSV
  median : JSV
  p05 : JSV
  p10 : JSV
  p50 : JSV
  p90 : JSV
  p95 : JSV
  p99 : JSV
  std : JSV
deriving DecidableEq

/-- The empty object `{}` returned by `calculateStatistics([])`: every
field read gives `undefined`. -/
def emptyStats : Stats :=
  ⟨.undef, .undef, .undef, .undef, .undef, .undef, .undef, .undef, .undef, .undef, .undef⟩

/-- `calculateStatistics(values)` from analyse-monitor.js: nearest-rank
percentiles on the ascending sort, `Math.round`ed mean, and sample
standard deviation (`n - 1` denominator; `NaN` for `n = 1` via `0/0`). -/
def calculateStatistics (values : List ℚ) : Stats :=
  if values.length = 0 then emptyStats
  else
    let sorted := values.insertionSort (· ≤ ·)
    let n : ℕ := sorted.length
    let mean : ℚ := values.foldl (fun a b => a + b) 0 / (n : ℚ)
    { min := .num (jsMinList values)
      max := .num (jsMaxList values)
      mean := .num (jsRoundQ mean : ℤ)
      median := .num (sorted.getD (n / 2) 0)
      p05 := .num (sorted.getD (⌊(n : ℚ) * 0.05⌋.toNat) 0)
      p10 := .num (sorted.getD (⌊(n : ℚ) * 0.1⌋.toNat) 0)
      p50 := .num (sorted.getD (⌊(n : ℚ) * 0.5⌋.toNat) 0)
      p90 := .num (sorted.getD (⌊(n : ℚ) * 0.9⌋.toNat) 0)
      p95 := .num (sorted.getD (⌊(n : ℚ) * 0.95⌋.toNat) 0)
      p99 := .num (sorted.getD (⌊(n : ℚ) * 0.99⌋.toNat) 0)
      std := jsRoundSqrtV (jsDiv
        (.num (values.foldl (fun sq x => sq + (x - mean) ^ 2) 0))
        (.num ((n : ℚ) - 1))) }

/-! ### Breach detector (`analyzeThresholdBreaches` in analyse-monitor.js) -/

/-- One point of the rolling time-series handed to the breach detector
(`{timestamp, value}` with a always-present numeric value). -/
structure TimePoint where
  timestamp : ℤ
  value : ℚ
deriving DecidableEq

instance : Inhabited TimePoint := ⟨⟨0, 0⟩⟩

/-- Comparison used by `sort((a, b) => a.timestamp - b.timestamp)` on the
breach detector's input. -/
def pointLE (a b : TimePoint) : Prop := a.timestamp ≤ b.timestamp

instance : DecidableRel pointLE := fun a b => Int.decLe a.timestamp b.timestamp

instance : IsTotal TimePoint pointLE := ⟨fun a b => Int.le_total a.timestamp b.timestamp⟩

instance : IsTrans TimePoint pointLE := ⟨fun _ _ _ h1 h2 => le_trans h1 h2⟩

/-- Threshold level (the JS strings 'Critical' / 'Warning'). -/
inductive Level where
  | Critical
  | Warning
deriving DecidableEq

/-- One entry of `thresholdsToCheck`: `{value, level, operator}`. -/
structure ThresholdCheck where
  value : ℚ
  level : Level
  operator : String
deriving DecidableEq

/-- The monitor's threshold configuration (fields may be unset). -/
structure MonitorThresholds where
  critical : Option ℚ
  warning : Option ℚ
  criticalRecovery : Option ℚ
deriving DecidableEq

/-- An open (not yet closed) breach: the `currentBreach` object between its
creation and the assignment of `endTime`/`endValue`/`duration`.  The
not-yet-assigned fields (`endTime: null` etc.) are omitted. -/
structure CurrentBreach where
  level : Level
  threshold : ℚ
  operator : String
  startTime : ℤ
  startValue : ℚ
  peakValue : ℚ
  peakTime : ℤ
  maxDeviation : ℚ
deriving DecidableEq

/-- A closed breach interval as pushed onto `breaches`. -/
structure Breach where
  level : Level
  threshold : ℚ
  operator : String
  startTime : ℤ
  startValue : ℚ
  peakValue : ℚ
  peakTime : ℤ
  endTime : ℤ
  endValue : ℚ
  duration : ℚ
  maxDeviation : ℚ
  isOngoing : Bool
deriving DecidableEq

/-- Opening a breach at point `p` (the `!currentBreach` branch). -/
def openBreach (thr : ThresholdCheck) (p : TimePoint) : CurrentBreach :=
  ⟨thr.level, thr.value, thr.operator, p.timestamp, p.value, p.value, p.timestamp,
    |p.value - thr.value|⟩

/-- Updating an open breach with a further breaching point: peak tracking in
the bad direction plus `maxDeviation` update. -/
def updateBreach (isHighBad : Bool) (thr : ThresholdCheck) (cb : CurrentBreach)
    (p : TimePoint) : CurrentBreach :=
  let cb1 :=
    if isHighBad then
      if cb.peakValue < p.value then
        { cb with peakValue := p.value, peakTime := p.timestamp }
      else cb
    else
      if p.value < cb.peakValue then
        { cb with peakValue := p.value, peakTime := p.timestamp }
      else cb
  { cb1 with maxDeviation := max cb1.maxDeviation |p.value - thr.value| }

/-- Closing a breach at time `endTime` / value `endValue`
(`duration = (endTime - startTime) / (1000 * 60)` minutes). -/
def closeBreach (cb : CurrentBreach) (endTime : ℤ) (endValue : ℚ) (ongoing : Bool) : Breach :=
  ⟨cb.level, cb.threshold, cb.operator, cb.startTime, cb.startValue, cb.peakValue, cb.peakTime,
    endTime, endValue, ((endTime : ℚ) - (cb.startTime : ℚ)) / (1000 * 60), cb.maxDeviation,
    ongoing⟩

/-- The inner `for (i ...)` loop of `analyzeThresholdBreaches` for one
threshold: walks the sorted points with the `currentBreach` state, pushing
closed breaches that last at least one minute; returns the pushed breaches
and the state left at the end of the data. -/
def breachLoop (isHighBad : Bool) (thr : ThresholdCheck) :
    List TimePoint → Option CurrentBreach → List Breach × Option CurrentBreach
  | [], cur => ([], cur)
  | p :: rest, cur =>
    let breached := if isHighBad then thr.value ≤ p.value else p.value ≤ thr.value
    if breached then
      match cur with
      | none => breachLoop isHighBad thr rest (some (openBreach thr p))
      | some cb => breachLoop isHighBad thr rest (some (updateBreach isHighBad thr cb p))
    else
      match cur with
      | none => breachLoop isHighBad thr rest none
      | some cb =>
        let closed := closeBreach cb p.timestamp p.value false
        let r := breachLoop isHighBad thr rest none
        (if 1 ≤ closed.duration then closed :: r.1 else r.1, r.2)

/-- One full pass of the `for (const threshold of thresholdsToCheck)` body:
the in-loop breaches plus the ongoing breach (if any) closed at the last
point of the series and flagged `isOngoing`. -/
def checkThreshold (isHighBad : Bool) (sortedData : List TimePoint)
    (thr : ThresholdCheck) : List Breach :=
  let r := breachLoop isHighBad thr sortedData none
  match r.2, sortedData.getLast? with
  | some cb, some lastPoint =>
      let final := closeBreach cb lastPoint.timestamp lastPoint.value true
      r.1 ++ (if 1 ≤ final.duration then [final] else [])
  | _, _ => r.1

/-- `thresholdsToCheck`: Critical first (when configured), then Warning,
with the operator derived from directionality. -/
def thresholdsToCheck (thresholds : MonitorThresholds) (isHighBad : Bool) :
    List ThresholdCheck :=
  (match thresholds.critical with
   | some v => [⟨v, .Critical, if isHighBad then ">=" else "<="⟩]
   | none => []) ++
  (match thresholds.warning with
   | some v => [⟨v, .Warning, if isHighBad then ">=" else "<="⟩]
   | none => [])

/-- The breach statistics record; `JSV` fields because the early-return
of the detector yields the empty object `{}`. -/
structure BreachStats where
  totalBreaches : JSV
  criticalBreaches : JSV
  warningBreaches : JSV
  avgDuration : JSV
  longestBreach : JSV
  shortBreaches : JSV
  sustainedBreaches : JSV
  maxDeviation : JSV
deriving DecidableEq

/-- The `{}` stats of the empty-input early return. -/
def emptyBreachStats : BreachStats :=
  ⟨.undef, .undef, .undef, .undef, .undef, .undef, .undef, .undef⟩

/-- The statistics computed from the (non-deduplicated) breach list at the
end of `analyzeThresholdBreaches`. -/
def calculateBreachStats (breaches : List Breach) : BreachStats :=
  let criticalBreaches := breaches.filter fun b => decide (b.level = Level.Critical)
  let warningBreaches := breaches.filter fun b => decide (b.level = Level.Warning)
  { totalBreaches := .num (breaches.length : ℚ)
    criticalBreaches := .num (criticalBreaches.length : ℚ)
    warningBreaches := .num (warningBreaches.length : ℚ)
    avgDuration :=
      if breaches.length ≠ 0 then
        .num ((jsRoundQ ((breaches.map fun b => b.duration).foldl (fun sum d => sum + d) 0 /
          (breaches.length : ℚ)) : ℤ))
      else .num 0
    longestBreach :=
      if breaches.length ≠ 0 then
        .num ((jsRoundQ (jsMaxList (breaches.map fun b => b.duration)) : ℤ))
      else .num 0
    shortBreaches := .num ((breaches.filter fun b => decide (b.duration < 15)).length : ℚ)
    sustainedBreaches := .num ((breaches.filter fun b => decide (30 < b.duration)).length : ℚ)
    maxDeviation :=
      if breaches.length ≠ 0 then
        .num ((jsRoundQ (jsMaxList (breaches.map fun b => b.maxDeviation)) : ℤ))
      else .num 0 }

/-- The result record `{ breaches, stats }`. -/
structure BreachResult where
  breaches : List Breach
  stats : BreachStats
deriving DecidableEq

/-- `analyzeThresholdBreaches(timeSeriesData, thresholds, isHighBad)` from
analyse-monitor.js: empty input returns `{ breaches: [], stats: {} }`;
otherwise sort chronologically, run the state machine per configured
threshold level (Critical first, then Warning, appending into one list)
and attach the statistics of the full list. -/
def analyzeThresholdBreaches (timeSeriesData : List TimePoint)
    (thresholds : MonitorThresholds) (isHighBad : Bool) : BreachResult :=
  if timeSeriesData.length = 0 then ⟨[], emptyBreachStats⟩
  else
    let sortedData := timeSeriesData.insertionSort pointLE
    let breaches :=
      (thresholdsToCheck thresholds isHighBad).flatMap (checkThreshold isHighBad sortedData)
    ⟨breaches, calculateBreachStats breaches⟩

/-! ### Breach-list de-duplication (`analyseMonitor`, BREACH DETAILS) -/

/-- The de-duplication loop applied to the start-time-sorted breach list
before display: a Warning immediately followed by a Critical with the same
rounded peak value is skipped. -/
def dedupBreaches : List Breach → List Breach
  | [] => []
  | [b] => [b]
  | b :: next :: rest =>
      if b.level = Level.Warning ∧ next.level = Level.Critical ∧
          jsRoundQ b.peakValue = jsRoundQ next.peakValue then
        dedupBreaches (next :: rest)
      else b :: dedupBreaches (next :: rest)

/-- The sorted-then-deduplicated list printed under BREACH DETAILS. -/
def visibleBreaches (breaches : List Breach) : List Breach :=
  dedupBreaches (breaches.insertionSort fun a b => a.startTime ≤ b.startTime)

/-! ### Volatility score (`combineHighResData`, lines 517-518) -/

/-- `coefficientOfVariation = stats.std / stats.mean;`
`volatilityScore = Math.min(10, Math.round(coefficientOfVariation * 10))`.
Note both `stats.std` and `stats.mean` are the rounded values stored by
`calculateStatistics`. -/
def volatilityFromStats (stats : Stats) : JSV :=
  jsMin (.num 10) (jsRoundV (jsMul (jsDiv stats.std stats.mean) (.num 10)))

/-! ### Recommendation engine (`generateRecommendations`) -/

/-- The three strategies.  In the source these are the strings
'Conservative (High volatility or sustained breaches)',
'Balanced (Moderate volatility or some breaches)' and
'Standard (Low volatility, minimal breaches)'; later dispatch is via
`strategy.includes('Conservative')` etc., i.e. exactly on this
three-way distinction. -/
inductive Strategy where
  | conservative
  | balanced
  | standard
deriving DecidableEq

/-- The strategy selection at the top of `generateRecommendations`
(first match wins). -/
def selectStrategy (volatilityScore sustainedBreaches totalBreaches : JSV) : Strategy :=
  if jsGtQ volatilityScore 7 || jsGtQ sustainedBreaches 3 then .conservative
  else if jsGtQ volatilityScore 4 || jsGtQ totalBreaches 5 then .balanced
  else .standard

/-- The returned recommendation record (numeric and structural fields;
the human-readable reasoning strings and the `insights` list are
display-only and not modelled). -/
structure Recommendation where
  strategy : Strategy
  critical : JSV
  warning : JSV
  recovery : JSV
  recommendedWindow : String
  recommendedDelay : ℤ
deriving DecidableEq

/-- `generateRecommendations` (threshold/window part): strategy selection,
directionality-dependent threshold formulas, and the evaluation-window
choice; all three thresholds are `Math.round`ed on output. -/
def generateRecommendations (stats : Stats) (breachStats : BreachStats)
    (volatilityScore : JSV) (isHighBad : Bool) : Recommendation :=
  let strategy :=
    selectStrategy volatilityScore breachStats.sustainedBreaches breachStats.totalBreaches
  if isHighBad then
    let critical :=
      match strategy with
      | .conservative => jsMax stats.p95 (jsMul stats.max (.num 0.7))
      | .balanced => jsMax stats.p99 (jsMul stats.max (.num 0.8))
      | .standard => stats.p99
    let warning :=
      match strategy with
      | .conservative => jsRoundV (jsMul critical (.num 0.65))
      | .balanced => jsRoundV (jsMul critical (.num 0.75))
      | .standard => jsRoundV (jsMul critical (.num 0.8))
    let recovery :=
      match strategy with
      | .conservative => jsRoundV (jsMul critical (.num 0.85))
      | .balanced => jsRoundV (jsMul critical (.num 0.9))
      | .standard => jsRoundV (jsMul critical (.num 0.95))
    let windowDelay : String × ℤ :=
      if jsGtQ breachStats.avgDuration 60 then ("avg(last_15m)", 900)
      else if jsGtQ breachStats.avgDuration 30 || jsGtQ breachStats.sustainedBreaches 0 then
        ("avg(last_10m)", 600)
      else ("avg(last_5m)", 300)
    { strategy := strategy
      critical := jsRoundV critical
      warning := jsRoundV warning
      recovery := jsRoundV recovery
      recommendedWindow := windowDelay.1
      recommendedDelay := windowDelay.2 }
  else
    let critical :=
      match strategy with
      | .conservative =>
          jsMin (jsRoundV (jsMul stats.mean (.num 0.3))) (jsRoundV (jsMul stats.min (.num 1.5)))
      | .balanced =>
          jsMin (jsRoundV (jsMul stats.mean (.num 0.4))) (jsRoundV (jsMul stats.min (.num 1.3)))
      | .standard => jsRoundV (jsMul stats.mean (.num 0.5))
    let warning :=
      match strategy with
      | .conservative => jsRoundV (jsMul stats.mean (.num 0.6))
      | .balanced => jsRoundV (jsMul stats.mean (.num 0.7))
      | .standard => jsRoundV (jsMul stats.mean (.num 0.75))
    let recovery := jsRoundV (jsMul critical (.num 1.1))
    { strategy := strategy
      critical := jsRoundV critical
      warning := jsRoundV warning
      recovery := jsRoundV recovery
      recommendedWindow := "avg(last_15m)"
      recommendedDelay := 600 }

/-- The strategy-selection rule as worded in the specification (for the
refinement comparison with `selectStrategy`): first-match priority ladder
on integer-valued inputs. -/
def specStrategy (volatilityScore sustainedBreaches totalBreaches : ℤ) : Strategy :=
  if 7 < volatilityScore ∨ 3 < sustainedBreaches then .conservative
  else if 4 < volatilityScore ∨ 5 < totalBreaches then .balanced
  else .standard

/-! ## Auxiliary lemmas -/

/-! ### Correctness of the integer square root -/

theorem isqrtGo_spec (n : ℕ) :
    ∀ k, isqrtGo n k * isqrtGo n k ≤ n ∧ ∀ j ≤ k, j * j ≤ n → j ≤ isqrtGo n k := by
  intro k
  induction k with
  | zero => simp [isqrtGo]
  | succ k ih =>
    by_cases h : (k + 1) * (k + 1) ≤ n
    · refine ⟨by simpa [isqrtGo, h] using h, ?_⟩
      intro j hj _
      simpa [isqrtGo, h] using hj
    · refine ⟨by simpa [isqrtGo, h] using ih.1, ?_⟩
      intro j hj hjn
      have hjk : j ≤ k := by
        by_cases hj1 : j = k + 1
        · exact absurd (hj1 ▸ hjn) h
        · omega
      simpa [isqrtGo, h] using ih.2 j hjk hjn

theorem isqrt_le (n : ℕ) : isqrt n * isqrt n ≤ n := (isqrtGo_spec n n).1

theorem le_isqrt (n j : ℕ) (h : j * j ≤ n) : j ≤ isqrt n := by
  have hjj : j ≤ j * j := by
    rcases Nat.eq_zero_or_pos j with h0 | h0
    · simp [h0]
    · calc j = j * 1 := (Nat.mul_one j).symm
      _ ≤ j * j := Nat.mul_le_mul_left j h0
  exact (isqrtGo_spec n n).2 j (le_trans hjj h) h

theorem lt_isqrt_succ (n : ℕ) : n < (isqrt n + 1) * (isqrt n + 1) := by
  by_contra hc
  have := le_isqrt n (isqrt n + 1) (by omega)
  omega

/-- Helper: half-up rounding of a real square root, given an integer `s`
with `s² ≤ q < (s+1)²`. -/
theorem roundSqrtAux (q : ℚ) (s : ℤ) (hs0 : 0 ≤ s)
    (hlo : ((s * s : ℤ) : ℚ) ≤ q) (hhi : q < (((s + 1) * (s + 1) : ℤ) : ℚ)) :
    (if ((s * s + s : ℤ) : ℚ) + 1 / 4 ≤ q then s + 1 else s) = ⌊Real.sqrt q + 1 / 2⌋ := by
  have hsr : (s : ℝ) ≤ Real.sqrt q := by
    apply Real.le_sqrt_of_sq_le
    have h1 : (((s * s : ℤ) : ℚ) : ℝ) ≤ ((q : ℚ) : ℝ) := by exact_mod_cast hlo
    calc ((s : ℝ)) ^ 2 = (((s * s : ℤ) : ℚ) : ℝ) := by push_cast; ring
    _ ≤ ((q : ℚ) : ℝ) := h1
  have hsl : Real.sqrt q < (s : ℝ) + 1 := by
    rw [Real.sqrt_lt' (by positivity)]
    have h1 : ((q : ℚ) : ℝ) < ((((s + 1) * (s + 1) : ℤ) : ℚ) : ℝ) := by exact_mod_cast hhi
    calc ((q : ℚ) : ℝ) < ((((s + 1) * (s + 1) : ℤ) : ℚ) : ℝ) := h1
    _ = ((s : ℝ) + 1) ^ 2 := by push_cast; ring
  by_cases hcase : ((s * s + s : ℤ) : ℚ) + 1 / 4 ≤ q
  · simp only [hcase, if_true]
    have h1 : ((s : ℝ) + 1 / 2) ≤ Real.sqrt q := by
      apply Real.le_sqrt_of_sq_le
      have h2 : ((((s * s + s : ℤ) : ℚ) + 1 / 4 : ℚ) : ℝ) ≤ ((q : ℚ) : ℝ) := by
        exact_mod_cast hcase
      calc ((s : ℝ) + 1 / 2) ^ 2 = ((((s * s + s : ℤ) : ℚ) + 1 / 4 : ℚ) : ℝ) := by
            push_cast
            ring
      _ ≤ ((q : ℚ) : ℝ) := h2
    symm
    rw [Int.floor_eq_iff]
    refine ⟨by push_cast; linarith, by push_cast; linarith⟩
  · simp only [hcase, if_false]
    have h1 : Real.sqrt q < (s : ℝ) + 1 / 2 := by
      rw [Real.sqrt_lt' (by positivity)]
      have h2 : ((q : ℚ) : ℝ) < ((((s * s + s : ℤ) : ℚ) + 1 / 4 : ℚ) : ℝ) := by
        exact_mod_cast not_le.mp hcase
      calc ((q : ℚ) : ℝ) < ((((s * s + s : ℤ) : ℚ) + 1 / 4 : ℚ) : ℝ) := h2
      _ = ((s : ℝ) + 1 / 2) ^ 2 := by
            push_cast
            ring
    symm
    rw [Int.floor_eq_iff]
    refine ⟨by push_cast; linarith, by push_cast; linarith⟩

/-- `jsRoundSqrtQ` really is `Math.round ∘ Math.sqrt`: for `q ≥ 0` it equals
the half-up rounding `⌊√q + 1/2⌋` of the real square root. -/
theorem jsRoundSqrtQ_eq_round_sqrt (q : ℚ) (hq : 0 ≤ q) :
    jsRoundSqrtQ q = ⌊Real.sqrt q + 1 / 2⌋ := by
  have hfq : (0 : ℤ) ≤ ⌊q⌋ := Int.le_floor.mpr (by exact_mod_cast hq)
  have hfloor : (⌊q⌋.toNat : ℤ) = ⌊q⌋ := Int.toNat_of_nonneg hfq
  apply roundSqrtAux q _ (by positivity)
  · have h1 : ((isqrt ⌊q⌋.toNat * isqrt ⌊q⌋.toNat : ℕ) : ℤ) ≤ ((⌊q⌋.toNat : ℕ) : ℤ) := by
      exact_mod_cast isqrt_le ⌊q⌋.toNat
    rw [hfloor] at h1
    have h2 : (((isqrt ⌊q⌋.toNat : ℤ) * (isqrt ⌊q⌋.toNat : ℤ) : ℤ) : ℚ) ≤ ((⌊q⌋ : ℤ) : ℚ) := by
      push_cast at h1 ⊢
      exact_mod_cast h1
    exact le_trans h2 (Int.floor_le q)
  · have h1 : ((⌊q⌋.toNat : ℕ) : ℤ) < ((isqrt ⌊q⌋.toNat + 1) * (isqrt ⌊q⌋.toNat + 1) : ℕ) := by
      exact_mod_cast lt_isqrt_succ ⌊q⌋.toNat
    rw [hfloor] at h1
    have h2 : q < ((⌊q⌋ : ℤ) : ℚ) + 1 := Int.lt_floor_add_one q
    have h3 : ((⌊q⌋ : ℤ) : ℚ) + 1 ≤
        ((((isqrt ⌊q⌋.toNat : ℤ) + 1) * ((isqrt ⌊q⌋.toNat : ℤ) + 1) : ℤ) : ℚ) := by
      have h4 : ⌊q⌋ + 1 ≤ ((isqrt ⌊q⌋.toNat : ℤ) + 1) * ((isqrt ⌊q⌋.toNat : ℤ) + 1) := by
        push_cast at h1 ⊢
        omega
      exact_mod_cast h4
    exact lt_of_lt_of_le h2 h3

/-! ### The evaluation cursor is strictly increasing -/

theorem cursorList_le_of_mem (lastTimestamp stepSizeMs : ℤ) (hstep : 0 < stepSizeMs) :
    ∀ (fuel : ℕ) (t x : ℤ), x ∈ cursorList t lastTimestamp stepSizeMs fuel → t ≤ x := by
  intro fuel
  induction fuel with
  | zero => intro t x hx; simp [cursorList] at hx
  | succ n ih =>
    intro t x hx
    unfold cursorList at hx
    split at hx
    · rcases List.mem_cons.mp hx with h | h
      · omega
      · have := ih (t + stepSizeMs) x h
        omega
    · simp at hx

theorem cursorList_pairwise (lastTimestamp stepSizeMs : ℤ) (hstep : 0 < stepSizeMs) :
    ∀ (fuel : ℕ) (t : ℤ), (cursorList t lastTimestamp stepSizeMs fuel).Pairwise (· < ·) := by
  intro fuel
  induction fuel with
  | zero => intro t; simp [cursorList]
  | succ n ih =>
    intro t
    unfold cursorList
    split
    · refine List.pairwise_cons.mpr ⟨?_, ih (t + stepSizeMs)⟩
      intro x hx
      have := cursorList_le_of_mem lastTimestamp stepSizeMs hstep n (t + stepSizeMs) x hx
      omega
    · simp

/-! ### Shape of an emitted window point -/

theorem windowResult_eq_some {sortedData : List Sample} {windowSizeMs : ℤ} {agg : Agg}
    {d : Bool} {t : ℤ} {p : WindowPoint}
    (h : windowResult sortedData windowSizeMs agg d t = some p) :
    p.timestamp = t ∧ p.windowStart = t - windowSizeMs ∧ p.windowEnd = t ∧
      1 ≤ p.dataPointsInWindow := by
  simp only [windowResult] at h
  split at h
  · exact absurd h (by simp)
  · split at h
    · exact absurd h (by simp)
    · split at h
      · exact absurd h (by simp)
      · next hv =>
        have := Option.some.inj h
        subst this
        exact ⟨rfl, rfl, rfl, Nat.one_le_iff_ne_zero.mpr hv⟩

/-! ## Claim theorems -/

/-- C1: for every input accepted by the rolling-window aggregator (any
sample list, positive window and step sizes, valid kind), every emitted
`WindowPoint` satisfies `windowStart < windowEnd`,
`windowEnd - windowStart = windowSizeMs` and `dataPointsInWindow ≥ 1`
(a window with zero valid samples is never emitted), and the emitted list
is strictly ascending in `timestamp` — in particular at most one point per
cursor step. -/
theorem rollingAggregation_window_invariants (dataPoints : List Sample)
    (windowSizeMs stepSizeMs : ℤ) (aggregation : String) (d : Bool) (pts : List WindowPoint)
    (h : calculateRollingAggregation dataPoints windowSizeMs stepSizeMs aggregation d = .ok pts) :
    (∀ p ∈ pts, p.windowStart < p.windowEnd ∧ p.windowEnd - p.windowStart = windowSizeMs ∧
      1 ≤ p.dataPointsInWindow) ∧
    pts.Pairwise (fun a b => a.timestamp < b.timestamp) := by
  by_cases hv : windowSizeMs ≤ 0 ∨ stepSizeMs ≤ 0
  · simp [calculateRollingAggregation, hv] at h
  have hw : 0 < windowSizeMs := by omega
  have hs : 0 < stepSizeMs := by omega
  cases hagg : parseAggregation aggregation with
  | none => simp [calculateRollingAggregation, hv, hagg] at h
  | some agg =>
    simp only [calculateRollingAggregation, hagg] at h
    rw [if_neg hv] at h
    by_cases hlen : dataPoints.length = 0
    · rw [if_pos hlen] at h
      have : pts = [] := (Except.ok.inj h).symm
      subst this
      simp
    · rw [if_neg hlen] at h
      by_cases hslen : (dataPoints.insertionSort sampleLE).length = 0
      · rw [if_pos hslen] at h
        have : pts = [] := (Except.ok.inj h).symm
        subst this
        simp
      · rw [if_neg hslen] at h
        have hpts := (Except.ok.inj h).symm
        subst hpts
        constructor
        · intro p hp
          obtain ⟨t, _ht, hres⟩ := List.mem_filterMap.mp hp
          obtain ⟨hts, hws, hwe, hcount⟩ := windowResult_eq_some hres
          refine ⟨by omega, by omega, hcount⟩
        · refine List.pairwise_filterMap.mpr ?_
          refine List.Pairwise.imp ?_
            (cursorList_pairwise _ stepSizeMs hs _ _)
          intro a b hab p1 h1 p2 h2
          have e1 := (windowResult_eq_some (Option.mem_def.mp h1)).1
          have e2 := (windowResult_eq_some (Option.mem_def.mp h2)).1
          omega

/-- C1 witness: a concrete accepted run. -/
theorem rollingAggregation_window_invariants_witness :
    (∀ p ∈ [(⟨0, 2, -5, 0, 1⟩ : WindowPoint)],
      p.windowStart < p.windowEnd ∧ p.windowEnd - p.windowStart = 5 ∧
        1 ≤ p.dataPointsInWindow) ∧
    ([(⟨0, 2, -5, 0, 1⟩ : WindowPoint)]).Pairwise
      (fun a b => a.timestamp < b.timestamp) :=
  rollingAggregation_window_invariants [⟨0, some 2⟩] 5 5 "avg" false _ (by decide)

/-- C2 counterexample: with `discardIncomplete = true`, a window whose
*valid* (null-filtered) samples span 0 ms (< 25% of the window) and number
1 (< 3) is nevertheless emitted, because the source applies the sparse
test to the collected samples *before* null-filtering (three samples here,
so `windowPoints.length < 3` fails).  The claim as stated (test applied
after dropping null values) predicts this window is skipped. -/
theorem sparse_policy_counterexample :
    calculateRollingAggregation
      [⟨0, some 1⟩, ⟨10000, none⟩, ⟨10005, none⟩, ⟨10010, some 7⟩] 10000 10 "avg" true
      = .ok [⟨10010, 7, 10, 10010, 1⟩] ∧
    (windowPointsOf ([⟨0, some 1⟩, ⟨10000, none⟩, ⟨10005, none⟩,
        ⟨10010, some 7⟩].insertionSort sampleLE) 10 10010).filter
      (fun p => p.value.isSome) = [⟨10010, some 7⟩] ∧
    dataSpanOf [(⟨10010, some 7⟩ : Sample)] = 0 ∧
    ((0 : ℚ) < (10000 : ℚ) * 0.25) ∧
    ([(⟨10010, some 7⟩ : Sample)]).length < 3 := by
  exact ⟨by decide, by decide, by decide, by decide, by decide⟩

/-- C2 (amended): with `discardIncomplete = true`, for a cursor whose
collected window is non-empty and contains at least one valid value, the
window is skipped by the sparse policy **iff** the *collected* samples —
counted and spanned before null/`NaN` filtering — span less than 25% of the
window duration and number fewer than 3. -/
theorem sparse_policy_amended (sortedData : List Sample) (windowSizeMs t : ℤ) (agg : Agg)
    (hne : windowPointsOf sortedData (t - windowSizeMs) t ≠ [])
    (hval : valuesOf (windowPointsOf sortedData (t - windowSizeMs) t) ≠ []) :
    windowResult sortedData windowSizeMs agg true t = none ↔
      ((dataSpanOf (windowPointsOf sortedData (t - windowSizeMs) t) : ℚ) <
          (windowSizeMs : ℚ) * 0.25 ∧
        (windowPointsOf sortedData (t - windowSizeMs) t).length < 3) := by
  have hspan : ((t - (t - windowSizeMs) : ℤ) : ℚ) = (windowSizeMs : ℚ) := by
    push_cast
    ring
  simp only [windowResult, hspan]
  rw [if_neg (by simpa [List.length_eq_zero] using hne)]
  by_cases hc : ((dataSpanOf (windowPointsOf sortedData (t - windowSizeMs) t) : ℚ) <
      (windowSizeMs : ℚ) * 0.25 ∧ (windowPointsOf sortedData (t - windowSizeMs) t).length < 3)
  · rw [if_pos (by simp [hc.1, hc.2])]
    simp [hc]
  · rw [if_neg (by
      simp only [Bool.true_and, Bool.and_eq_true, decide_eq_true_eq]
      exact fun hcon => hc ⟨hcon.1, hcon.2⟩)]
    rw [if_neg (by simpa [List.length_eq_zero] using hval)]
    simp [hc]

/-- C2 witness for the amended theorem: the window of the counterexample
above (collected samples: three, so not skipped). -/
theorem sparse_policy_amended_witness :
    (windowPointsOf ([⟨0, some 1⟩, ⟨10000, none⟩, ⟨10005, none⟩,
        ⟨10010, some 7⟩].insertionSort sampleLE) (10010 - 10000) 10010 ≠ []) ∧
    (valuesOf (windowPointsOf ([⟨0, some 1⟩, ⟨10000, none⟩, ⟨10005, none⟩,
        ⟨10010, some 7⟩].insertionSort sampleLE) (10010 - 10000) 10010) ≠ []) ∧
    (windowResult ([⟨0, some 1⟩, ⟨10000, none⟩, ⟨10005, none⟩,
        ⟨10010, some 7⟩].insertionSort sampleLE) 10000 .avg true 10010 = none ↔
      ((dataSpanOf (windowPointsOf ([⟨0, some 1⟩, ⟨10000, none⟩, ⟨10005, none⟩,
          ⟨10010, some 7⟩].insertionSort sampleLE) (10010 - 10000) 10010) : ℚ) <
          ((10000 : ℤ) : ℚ) * 0.25 ∧
        (windowPointsOf ([⟨0, some 1⟩, ⟨10000, none⟩, ⟨10005, none⟩,
          ⟨10010, some 7⟩].insertionSort sampleLE) (10010 - 10000) 10010).length < 3)) :=
  ⟨by decide, by decide,
    sparse_policy_amended _ 10000 10010 .avg (by decide) (by decide)⟩

/-! ### Permutation invariance machinery (for C3) -/

theorem foldl_add_eq_sum (l : List ℚ) (b : ℚ) :
    l.foldl (fun sum val => sum + val) b = b + l.sum := by
  induction l generalizing b with
  | nil => simp
  | cons a t ih => simp [ih, add_assoc]

theorem foldl_min_mem : ∀ (vs : List ℚ) (v : ℚ), vs.foldl min v ∈ v :: vs := by
  intro vs
  induction vs with
  | nil => intro v; simp
  | cons a t ih =>
    intro v
    rw [List.foldl_cons]
    rcases List.mem_cons.mp (ih (min v a)) with h1 | h1
    · rw [h1]
      rcases min_choice v a with h2 | h2 <;> simp [h2]
    · exact List.mem_cons.mpr (Or.inr (List.mem_cons.mpr (Or.inr h1)))

theorem foldl_min_le : ∀ (vs : List ℚ) (v : ℚ), ∀ x ∈ v :: vs, vs.foldl min v ≤ x := by
  intro vs
  induction vs with
  | nil =>
    intro v x hx
    simp at hx
    simp [hx]
  | cons a t ih =>
    intro v x hx
    rw [List.foldl_cons]
    have hhead : t.foldl min (min v a) ≤ min v a :=
      ih (min v a) (min v a) (List.mem_cons_self _ _)
    rcases List.mem_cons.mp hx with h1 | h1
    · subst h1
      exact le_trans hhead (min_le_left _ _)
    · rcases List.mem_cons.mp h1 with h2 | h2
      · subst h2
        exact le_trans hhead (min_le_right _ _)
      · exact ih (min v a) x (List.mem_cons.mpr (Or.inr h2))

theorem foldl_max_mem : ∀ (vs : List ℚ) (v : ℚ), vs.foldl max v ∈ v :: vs := by
  intro vs
  induction vs with
  | nil => intro v; simp
  | cons a t ih =>
    intro v
    rw [List.foldl_cons]
    rcases List.mem_cons.mp (ih (max v a)) with h1 | h1
    · rw [h1]
      rcases max_choice v a with h2 | h2 <;> simp [h2]
    · exact List.mem_cons.mpr (Or.inr (List.mem_cons.mpr (Or.inr h1)))

theorem le_foldl_max : ∀ (vs : List ℚ) (v : ℚ), ∀ x ∈ v :: vs, x ≤ vs.foldl max v := by
  intro vs
  induction vs with
  | nil =>
    intro v x hx
    simp at hx
    simp [hx]
  | cons a t ih =>
    intro v x hx
    rw [List.foldl_cons]
    have hhead : max v a ≤ t.foldl max (max v a) :=
      ih (max v a) (max v a) (List.mem_cons_self _ _)
    rcases List.mem_cons.mp hx with h1 | h1
    · subst h1
      exact le_trans (le_max_left _ _) hhead
    · rcases List.mem_cons.mp h1 with h2 | h2
      · subst h2
        exact le_trans (le_max_right _ _) hhead
      · exact ih (max v a) x (List.mem_cons.mpr (Or.inr h2))

theorem jsMinList_perm {l₁ l₂ : List ℚ} (h : l₁.Perm l₂) : jsMinList l₁ = jsMinList l₂ := by
  cases l₁ with
  | nil =>
    have : l₂ = [] := h.symm.eq_nil
    rw [this]
  | cons a t =>
    cases l₂ with
    | nil => exact absurd h.eq_nil (by simp)
    | cons b u =>
      show t.foldl min a = u.foldl min b
      apply le_antisymm
      · exact foldl_min_le t a _ (h.mem_iff.mpr (foldl_min_mem u b))
      · exact foldl_min_le u b _ (h.mem_iff.mp (foldl_min_mem t a))

theorem jsMaxList_perm {l₁ l₂ : List ℚ} (h : l₁.Perm l₂) : jsMaxList l₁ = jsMaxList l₂ := by
  cases l₁ with
  | nil =>
    have : l₂ = [] := h.symm.eq_nil
    rw [this]
  | cons a t =>
    cases l₂ with
    | nil => exact absurd h.eq_nil (by simp)
    | cons b u =>
      show t.foldl max a = u.foldl max b
      apply le_antisymm
      · exact le_foldl_max u b _ (h.mem_iff.mp (foldl_max_mem t a))
      · exact le_foldl_max t a _ (h.mem_iff.mpr (foldl_max_mem u b))

theorem aggregateValue_perm {l₁ l₂ : List ℚ} (h : l₁.Perm l₂) (agg : Agg) :
    aggregateValue agg l₁ = aggregateValue agg l₂ := by
  cases agg
  · show l₁.foldl _ 0 / (l₁.length : ℚ) = l₂.foldl _ 0 / (l₂.length : ℚ)
    rw [foldl_add_eq_sum, foldl_add_eq_sum, h.sum_eq, h.length_eq]
  · show l₁.foldl _ 0 = l₂.foldl _ 0
    rw [foldl_add_eq_sum, foldl_add_eq_sum, h.sum_eq]
  · exact jsMinList_perm h
  · exact jsMaxList_perm h
  · show ((l₁.length : ℕ) : ℚ) = ((l₂.length : ℕ) : ℚ)
    rw [h.length_eq]

theorem headD_mem {α : Type} (l : List α) (d : α) (h : l ≠ []) : l.headD d ∈ l := by
  cases l with
  | nil => exact absurd rfl h
  | cons a t => simp

theorem getLastD_mem {α : Type} : ∀ (l : List α) (d : α), l ≠ [] → l.getLastD d ∈ l := by
  intro l
  induction l with
  | nil => simp
  | cons a t ih =>
    intro d _
    rw [List.getLastD_cons]
    cases t with
    | nil => simp [List.getLastD_nil]
    | cons b u => exact List.mem_cons.mpr (Or.inr (ih a (by simp)))

theorem sorted_head_le {l : List Sample} (hs : l.Pairwise sampleLE) :
    ∀ x ∈ l, (l.headD default).timestamp ≤ x.timestamp := by
  cases l with
  | nil => simp
  | cons a t =>
    intro x hx
    rw [List.headD_cons]
    rcases List.mem_cons.mp hx with h1 | h1
    · rw [h1]
    · exact (List.pairwise_cons.mp hs).1 x h1

theorem getLastD_indep {α : Type} (l : List α) (d1 d2 : α) (h : l ≠ []) :
    l.getLastD d1 = l.getLastD d2 := by
  cases l with
  | nil => exact absurd rfl h
  | cons a t => rw [List.getLastD_cons, List.getLastD_cons]

theorem sorted_le_getLastD : ∀ {l : List Sample}, l.Pairwise sampleLE →
    ∀ x ∈ l, x.timestamp ≤ (l.getLastD default).timestamp := by
  intro l
  induction l with
  | nil => simp
  | cons a t ih =>
    intro hs x hx
    rw [List.getLastD_cons]
    cases t with
    | nil =>
      rw [List.getLastD_nil]
      rcases List.mem_cons.mp hx with h1 | h1
      · rw [h1]
      · simp at h1
    | cons b u =>
      rw [getLastD_indep (b :: u) a default (by simp)]
      rcases List.mem_cons.mp hx with h1 | h1
      · subst h1
        have hmem : (b :: u).getLastD default ∈ b :: u := getLastD_mem _ _ (by simp)
        exact (List.pairwise_cons.mp hs).1 _ hmem
      · exact ih (List.pairwise_cons.mp hs).2 x h1

theorem headD_ts_eq {l1 l2 : List Sample} (h : l1.Perm l2)
    (h1 : l1.Pairwise sampleLE) (h2 : l2.Pairwise sampleLE) (hne : l1 ≠ []) :
    (l1.headD default).timestamp = (l2.headD default).timestamp := by
  have hne2 : l2 ≠ [] := fun he => hne (h.trans (he ▸ List.Perm.refl _)).eq_nil
  apply le_antisymm
  · exact sorted_head_le h1 _ (h.mem_iff.mpr (headD_mem l2 default hne2))
  · exact sorted_head_le h2 _ (h.mem_iff.mp (headD_mem l1 default hne))

theorem getLastD_ts_eq {l1 l2 : List Sample} (h : l1.Perm l2)
    (h1 : l1.Pairwise sampleLE) (h2 : l2.Pairwise sampleLE) (hne : l1 ≠ []) :
    (l1.getLastD default).timestamp = (l2.getLastD default).timestamp := by
  have hne2 : l2 ≠ [] := fun he => hne (h.trans (he ▸ List.Perm.refl _)).eq_nil
  apply le_antisymm
  · exact sorted_le_getLastD h2 _ (h.mem_iff.mp (getLastD_mem l1 default hne))
  · exact sorted_le_getLastD h1 _ (h.mem_iff.mpr (getLastD_mem l2 default hne2))

/-- One window evaluation sees only the multiset of samples in the window:
two sorted permutations of the same data give the same window result. -/
theorem windowResult_perm {s1 s2 : List Sample} (hp : s1.Perm s2)
    (hs1 : s1.Pairwise sampleLE) (hs2 : s2.Pairwise sampleLE)
    (windowSizeMs : ℤ) (agg : Agg) (d : Bool) (t : ℤ) :
    windowResult s1 windowSizeMs agg d t = windowResult s2 windowSizeMs agg d t := by
  have hwp : (windowPointsOf s1 (t - windowSizeMs) t).Perm
      (windowPointsOf s2 (t - windowSizeMs) t) := hp.filter _
  have hwps1 : (windowPointsOf s1 (t - windowSizeMs) t).Pairwise sampleLE :=
    hs1.filter _
  have hwps2 : (windowPointsOf s2 (t - windowSizeMs) t).Pairwise sampleLE :=
    hs2.filter _
  have hlen := hwp.length_eq
  have hspan : dataSpanOf (windowPointsOf s1 (t - windowSizeMs) t) =
      dataSpanOf (windowPointsOf s2 (t - windowSizeMs) t) := by
    by_cases hnil : windowPointsOf s1 (t - windowSizeMs) t = []
    · have hwp2 := hwp
      rw [hnil] at hwp2
      rw [hnil, hwp2.symm.eq_nil]
    · unfold dataSpanOf
      rw [headD_ts_eq hwp hwps1 hwps2 hnil, getLastD_ts_eq hwp hwps1 hwps2 hnil]
  have hvals : (valuesOf (windowPointsOf s1 (t - windowSizeMs) t)).Perm
      (valuesOf (windowPointsOf s2 (t - windowSizeMs) t)) := (hwp.map _).filterMap _
  have hvlen := hvals.length_eq
  have hagg := aggregateValue_perm hvals agg
  simp only [windowResult]
  rw [← hlen, ← hspan, ← hvlen, ← hagg]

/-- C3: the rolling-window aggregator is invariant under permutation of its
input sample list — shuffling the input (including duplicate-timestamp and
out-of-order entries) produces identical output for the same window size,
step size, kind and completeness policy. -/
theorem rollingAggregation_perm_invariant (l1 l2 : List Sample)
    (windowSizeMs stepSizeMs : ℤ) (aggregation : String) (d : Bool) (h : l1.Perm l2) :
    calculateRollingAggregation l1 windowSizeMs stepSizeMs aggregation d =
      calculateRollingAggregation l2 windowSizeMs stepSizeMs aggregation d := by
  by_cases hv : windowSizeMs ≤ 0 ∨ stepSizeMs ≤ 0
  · simp [calculateRollingAggregation, hv]
  cases hagg : parseAggregation aggregation with
  | none => simp [calculateRollingAggregation, hv, hagg]
  | some agg =>
    simp only [calculateRollingAggregation, hagg]
    rw [if_neg hv, if_neg hv]
    have hlen : l1.length = l2.length := h.length_eq
    by_cases hl : l1.length = 0
    · have hl2 : l2.length = 0 := by omega
      rw [if_pos hl, if_pos hl2]
    · have hl2 : ¬l2.length = 0 := by omega
      have hperm : (l1.insertionSort sampleLE).Perm (l2.insertionSort sampleLE) :=
        ((List.perm_insertionSort sampleLE l1).trans h).trans
          (List.perm_insertionSort sampleLE l2).symm
      have hsort1 : (l1.insertionSort sampleLE).Pairwise sampleLE :=
        List.sorted_insertionSort sampleLE l1
      have hsort2 : (l2.insertionSort sampleLE).Pairwise sampleLE :=
        List.sorted_insertionSort sampleLE l2
      have hslen : (l1.insertionSort sampleLE).length = (l2.insertionSort sampleLE).length :=
        hperm.length_eq
      by_cases hsl : (l1.insertionSort sampleLE).length = 0
      · have hsl2 : (l2.insertionSort sampleLE).length = 0 := by omega
        rw [if_neg hl, if_pos hsl, if_neg hl2, if_pos hsl2]
      · have hsl2 : ¬(l2.insertionSort sampleLE).length = 0 := by omega
        have hne1 : l1.insertionSort sampleLE ≠ [] := by
          intro he
          exact hsl (by simp [he])
        have hhead := headD_ts_eq hperm hsort1 hsort2 hne1
        have hlast := getLastD_ts_eq hperm hsort1 hsort2 hne1
        have hfun : windowResult (l1.insertionSort sampleLE) windowSizeMs agg d =
            windowResult (l2.insertionSort sampleLE) windowSizeMs agg d :=
          funext fun t => windowResult_perm hperm hsort1 hsort2 windowSizeMs agg d t
        rw [if_neg hl, if_neg hsl, if_neg hl2, if_neg hsl2, hhead, hlast, hfun]

/-- C3 witness: a two-element shuffle with a duplicate timestamp. -/
theorem rollingAggregation_perm_invariant_witness :
    calculateRollingAggregation [⟨0, some 1⟩, ⟨0, some 3⟩, ⟨60000, some 5⟩] 60000 60000 "avg" false =
      calculateRollingAggregation [⟨60000, some 5⟩, ⟨0, some 3⟩, ⟨0, some 1⟩] 60000 60000 "avg" false :=
  rollingAggregation_perm_invariant _ _ 60000 60000 "avg" false (by decide)

/-- C4: for every non-empty value list of length `n`, each percentile field
`pN` of the statistics summary is the element at zero-based index
`⌊n * N⌋` of the ascending sort (nearest-rank, no interpolation); in
particular for `values = [1..100]`, `p95 = 96`. -/
theorem statistics_percentiles (values : List ℚ) (hne : values ≠ []) :
    ((calculateStatistics values).p05 =
        .num ((values.insertionSort (· ≤ ·)).getD (⌊(values.length : ℚ) * 0.05⌋.toNat) 0) ∧
      (calculateStatistics values).p10 =
        .num ((values.insertionSort (· ≤ ·)).getD (⌊(values.length : ℚ) * 0.1⌋.toNat) 0) ∧
      (calculateStatistics values).p50 =
        .num ((values.insertionSort (· ≤ ·)).getD (⌊(values.length : ℚ) * 0.5⌋.toNat) 0) ∧
      (calculateStatistics values).p90 =
        .num ((values.insertionSort (· ≤ ·)).getD (⌊(values.length : ℚ) * 0.9⌋.toNat) 0) ∧
      (calculateStatistics values).p95 =
        .num ((values.insertionSort (· ≤ ·)).getD (⌊(values.length : ℚ) * 0.95⌋.toNat) 0) ∧
      (calculateStatistics values).p99 =
        .num ((values.insertionSort (· ≤ ·)).getD (⌊(values.length : ℚ) * 0.99⌋.toNat) 0)) ∧
    (calculateStatistics ((List.range 100).map fun i => ((i + 1 : ℕ) : ℚ))).p95 = .num 96 := by
  refine ⟨?_, by decide⟩
  have hlen : ¬values.length = 0 := by
    simpa [List.length_eq_zero] using hne
  have hn : (values.insertionSort (· ≤ ·)).length = values.length :=
    (List.perm_insertionSort _ _).length_eq
  simp only [calculateStatistics]
  rw [if_neg hlen]
  rw [hn]
  exact ⟨rfl, rfl, rfl, rfl, rfl, rfl⟩

/-- C4 witness: percentiles of a concrete three-element list. -/
theorem statistics_percentiles_witness :
    ((calculateStatistics [3, 1, 2]).p05 =
        .num (([3, 1, 2].insertionSort (· ≤ ·)).getD (⌊((3 : ℕ) : ℚ) * 0.05⌋.toNat) 0) ∧
      (calculateStatistics [3, 1, 2]).p10 =
        .num (([3, 1, 2].insertionSort (· ≤ ·)).getD (⌊((3 : ℕ) : ℚ) * 0.1⌋.toNat) 0) ∧
      (calculateStatistics [3, 1, 2]).p50 =
        .num (([3, 1, 2].insertionSort (· ≤ ·)).getD (⌊((3 : ℕ) : ℚ) * 0.5⌋.toNat) 0) ∧
      (calculateStatistics [3, 1, 2]).p90 =
        .num (([3, 1, 2].insertionSort (· ≤ ·)).getD (⌊((3 : ℕ) : ℚ) * 0.9⌋.toNat) 0) ∧
      (calculateStatistics [3, 1, 2]).p95 =
        .num (([3, 1, 2].insertionSort (· ≤ ·)).getD (⌊((3 : ℕ) : ℚ) * 0.95⌋.toNat) 0) ∧
      (calculateStatistics [3, 1, 2]).p99 =
        .num (([3, 1, 2].insertionSort (· ≤ ·)).getD (⌊((3 : ℕ) : ℚ) * 0.99⌋.toNat) 0)) ∧
    (calculateStatistics ((List.range 100).map fun i => ((i + 1 : ℕ) : ℚ))).p95 = .num 96 :=
  statistics_percentiles [3, 1, 2] (by decide)

/-! ### Breach state machine invariants (for C5, C10) -/

theorem updateBreach_startTime (isHighBad : Bool) (thr : ThresholdCheck)
    (cb : CurrentBreach) (p : TimePoint) :
    (updateBreach isHighBad thr cb p).startTime = cb.startTime ∧
      (updateBreach isHighBad thr cb p).level = cb.level := by
  unfold updateBreach
  split_ifs <;> exact ⟨rfl, rfl⟩

theorem sorted_le_getLast? {l : List TimePoint} (hs : l.Pairwise pointLE) {lp : TimePoint}
    (hl : l.getLast? = some lp) : ∀ x ∈ l, x.timestamp ≤ lp.timestamp := by
  induction l with
  | nil => simp at hl
  | cons a t ih =>
    intro x hx
    cases t with
    | nil =>
      simp at hl
      rcases List.mem_cons.mp hx with h1 | h1
      · rw [h1, hl]
      · simp at h1
    | cons b u =>
      have hl2 : (b :: u).getLast? = some lp := by
        rw [← hl]
        exact (List.getLast?_cons_cons ..).symm
      rcases List.mem_cons.mp hx with h1 | h1
      · subst h1
        have hmem : lp ∈ b :: u := List.mem_of_mem_getLast? (by rw [hl2]; rfl)
        exact (List.pairwise_cons.mp hs).1 lp hmem
      · exact ih (List.pairwise_cons.mp hs).2 hl2 x h1

/-- Full invariant of the per-threshold scan loop: every pushed breach has
the threshold's level, a well-ordered interval, the exact duration formula,
duration at least one minute and is not flagged ongoing; the pushed list is
ordered by start time; and the open state (if any) starts no earlier than
any pushed breach and its start time is either inherited or one of the
scanned timestamps. -/
theorem breachLoop_spec (isHighBad : Bool) (thr : ThresholdCheck) :
    ∀ (points : List TimePoint) (cur : Option CurrentBreach),
    points.Pairwise pointLE →
    (∀ cb, cur = some cb → cb.level = thr.level ∧
      ∀ p ∈ points, cb.startTime ≤ p.timestamp) →
    (∀ b ∈ (breachLoop isHighBad thr points cur).1,
        b.level = thr.level ∧ b.startTime ≤ b.endTime ∧
        b.duration = ((b.endTime : ℚ) - (b.startTime : ℚ)) / (1000 * 60) ∧
        1 ≤ b.duration ∧ b.isOngoing = false) ∧
    ((breachLoop isHighBad thr points cur).1.Pairwise fun x y => x.startTime ≤ y.startTime) ∧
    (∀ cb2, (breachLoop isHighBad thr points cur).2 = some cb2 →
        cb2.level = thr.level ∧
        (∀ b ∈ (breachLoop isHighBad thr points cur).1, b.startTime ≤ cb2.startTime) ∧
        ((∃ cb, cur = some cb ∧ cb2.startTime = cb.startTime) ∨
          cb2.startTime ∈ points.map (fun x => x.timestamp))) ∧
    (∀ b ∈ (breachLoop isHighBad thr points cur).1,
        b.startTime ∈ points.map (fun x => x.timestamp) ∨
          ∃ cb, cur = some cb ∧ b.startTime = cb.startTime) := by
  intro points
  induction points with
  | nil =>
    intro cur _ hcur
    refine ⟨by simp [breachLoop], by simp [breachLoop], ?_, by simp [breachLoop]⟩
    intro cb2 h2
    simp only [breachLoop] at h2
    obtain ⟨hlev, _⟩ := hcur cb2 h2
    exact ⟨hlev, by simp [breachLoop], Or.inl ⟨cb2, h2, rfl⟩⟩
  | cons p rest ih =>
    intro cur hsorted hcur
    have hsortedRest : rest.Pairwise pointLE := (List.pairwise_cons.mp hsorted).2
    have hheadle : ∀ x ∈ rest, p.timestamp ≤ x.timestamp :=
      (List.pairwise_cons.mp hsorted).1
    by_cases hbr : (if isHighBad then thr.value ≤ p.value else p.value ≤ thr.value)
    · cases cur with
      | none =>
        have hres : breachLoop isHighBad thr (p :: rest) none =
            breachLoop isHighBad thr rest (some (openBreach thr p)) := by
          simp only [breachLoop]
          rw [if_pos hbr]
        have hcur2 : ∀ cb, some (openBreach thr p) = some cb → cb.level = thr.level ∧
            ∀ q ∈ rest, cb.startTime ≤ q.timestamp := by
          intro cb hcb
          cases Option.some.inj hcb
          exact ⟨rfl, fun q hq => hheadle q hq⟩
        obtain ⟨i1, i2, i3, i4⟩ := ih (some (openBreach thr p)) hsortedRest hcur2
        rw [hres]
        refine ⟨i1, i2, ?_, ?_⟩
        · intro cb2 h2
          obtain ⟨j1, j2, j3⟩ := i3 cb2 h2
          refine ⟨j1, j2, ?_⟩
          rcases j3 with ⟨cb, hcb, hst⟩ | hmem
          · cases Option.some.inj hcb
            exact Or.inr (by simp [hst, openBreach])
          · exact Or.inr (by simp; right; simpa using hmem)
        · intro b hb
          rcases i4 b hb with hmem | ⟨cb, hcb, hst⟩
          · exact Or.inl (by simp; right; simpa using hmem)
          · cases Option.some.inj hcb
            exact Or.inl (by simp [hst, openBreach])
      | some cb =>
        have hres : breachLoop isHighBad thr (p :: rest) (some cb) =
            breachLoop isHighBad thr rest (some (updateBreach isHighBad thr cb p)) := by
          simp only [breachLoop]
          rw [if_pos hbr]
        obtain ⟨hust, hulev⟩ := updateBreach_startTime isHighBad thr cb p
        obtain ⟨hclev, hcst⟩ := hcur cb rfl
        have hcur2 : ∀ cb0, some (updateBreach isHighBad thr cb p) = some cb0 →
            cb0.level = thr.level ∧ ∀ q ∈ rest, cb0.startTime ≤ q.timestamp := by
          intro cb0 hcb0
          cases Option.some.inj hcb0
          refine ⟨hulev.trans hclev, ?_⟩
          intro q hq
          rw [hust]
          exact hcst q (List.mem_cons.mpr (Or.inr hq))
        obtain ⟨i1, i2, i3, i4⟩ := ih (some (updateBreach isHighBad thr cb p)) hsortedRest hcur2
        rw [hres]
        refine ⟨i1, i2, ?_, ?_⟩
        · intro cb2 h2
          obtain ⟨j1, j2, j3⟩ := i3 cb2 h2
          refine ⟨j1, j2, ?_⟩
          rcases j3 with ⟨cb0, hcb0, hst⟩ | hmem
          · cases Option.some.inj hcb0
            exact Or.inl ⟨cb, rfl, hst.trans hust⟩
          · exact Or.inr (by simp; right; simpa using hmem)
        · intro b hb
          rcases i4 b hb with hmem | ⟨cb0, hcb0, hst⟩
          · exact Or.inl (by simp; right; simpa using hmem)
          · cases Option.some.inj hcb0
            exact Or.inr ⟨cb, rfl, hst.trans hust⟩
    · cases cur with
      | none =>
        have hres : breachLoop isHighBad thr (p :: rest) none =
            breachLoop isHighBad thr rest none := by
          simp only [breachLoop]
          rw [if_neg hbr]
        obtain ⟨i1, i2, i3, i4⟩ := ih none hsortedRest (by simp)
        rw [hres]
        refine ⟨i1, i2, ?_, ?_⟩
        · intro cb2 h2
          obtain ⟨j1, j2, j3⟩ := i3 cb2 h2
          refine ⟨j1, j2, ?_⟩
          rcases j3 with ⟨cb, hcb, _⟩ | hmem
          · simp at hcb
          · exact Or.inr (by simp; right; simpa using hmem)
        · intro b hb
          rcases i4 b hb with hmem | ⟨cb, hcb, _⟩
          · exact Or.inl (by simp; right; simpa using hmem)
          · simp at hcb
      | some cb =>
        obtain ⟨hclev, hcst⟩ := hcur cb rfl
        have hres : breachLoop isHighBad thr (p :: rest) (some cb) =
            (if 1 ≤ (closeBreach cb p.timestamp p.value false).duration then
              closeBreach cb p.timestamp p.value false ::
                (breachLoop isHighBad thr rest none).1
            else (breachLoop isHighBad thr rest none).1,
              (breachLoop isHighBad thr rest none).2) := by
          simp only [breachLoop]
          rw [if_neg hbr]
        obtain ⟨i1, i2, i3, i4⟩ := ih none hsortedRest (by simp)
        have hstp : cb.startTime ≤ p.timestamp := hcst p (List.mem_cons_self _ _)
        have hcprops : (closeBreach cb p.timestamp p.value false).level = thr.level ∧
            (closeBreach cb p.timestamp p.value false).startTime ≤
              (closeBreach cb p.timestamp p.value false).endTime ∧
            (closeBreach cb p.timestamp p.value false).duration =
              (((closeBreach cb p.timestamp p.value false).endTime : ℚ) -
                ((closeBreach cb p.timestamp p.value false).startTime : ℚ)) / (1000 * 60) ∧
            (closeBreach cb p.timestamp p.value false).isOngoing = false :=
          ⟨hclev, hstp, rfl, rfl⟩
        have hcloseStLe : ∀ b ∈ (breachLoop isHighBad thr rest none).1,
            (closeBreach cb p.timestamp p.value false).startTime ≤ b.startTime := by
          intro b hb
          rcases i4 b hb with hmem | ⟨cb0, hcb0, _⟩
          · obtain ⟨q, hq, hqts⟩ := List.mem_map.mp hmem
            show cb.startTime ≤ b.startTime
            rw [← hqts]
            exact le_trans hstp (hheadle q hq)
          · simp at hcb0
        rw [hres]
        by_cases hkeep : 1 ≤ (closeBreach cb p.timestamp p.value false).duration
        · rw [if_pos hkeep]
          refine ⟨?_, ?_, ?_, ?_⟩
          · intro b hb
            rcases List.mem_cons.mp hb with h1 | h1
            · subst h1
              exact ⟨hcprops.1, hcprops.2.1, hcprops.2.2.1, hkeep, hcprops.2.2.2⟩
            · exact i1 b h1
          · exact List.pairwise_cons.mpr ⟨hcloseStLe, i2⟩
          · intro cb2 h2
            obtain ⟨j1, j2, j3⟩ := i3 cb2 h2
            refine ⟨j1, ?_, ?_⟩
            · intro b hb
              rcases List.mem_cons.mp hb with h1 | h1
              · subst h1
                rcases j3 with ⟨cb0, hcb0, _⟩ | hmem
                · simp at hcb0
                · obtain ⟨q, hq, hqts⟩ := List.mem_map.mp hmem
                  show (closeBreach cb p.timestamp p.value false).startTime ≤ cb2.startTime
                  rw [← hqts]
                  exact le_trans hstp (hheadle q hq)
              · exact j2 b h1
            · rcases j3 with ⟨cb0, hcb0, _⟩ | hmem
              · simp at hcb0
              · exact Or.inr (by simp; right; simpa using hmem)
          · intro b hb
            rcases List.mem_cons.mp hb with h1 | h1
            · subst h1
              exact Or.inr ⟨cb, rfl, rfl⟩
            · rcases i4 b h1 with hmem | ⟨cb0, hcb0, _⟩
              · exact Or.inl (by simp; right; simpa using hmem)
              · simp at hcb0
        · rw [if_neg hkeep]
          refine ⟨i1, i2, ?_, ?_⟩
          · intro cb2 h2
            obtain ⟨j1, j2, j3⟩ := i3 cb2 h2
            refine ⟨j1, j2, ?_⟩
            rcases j3 with ⟨cb0, hcb0, _⟩ | hmem
            · simp at hcb0
            · exact Or.inr (by simp; right; simpa using hmem)
          · intro b hb
            rcases i4 b hb with hmem | ⟨cb0, hcb0, _⟩
            · exact Or.inl (by simp; right; simpa using hmem)
            · simp at hcb0

/-- Per-threshold pass invariant: every interval kept by `checkThreshold`
(including an ongoing one closed at the last point) carries the threshold's
level, a well-ordered interval, the exact duration formula and at least one
minute of duration, and the list is ordered by start time. -/
theorem checkThreshold_spec (isHighBad : Bool) (sortedData : List TimePoint)
    (thr : ThresholdCheck) (hsorted : sortedData.Pairwise pointLE) :
    (∀ b ∈ checkThreshold isHighBad sortedData thr,
      b.level = thr.level ∧ b.startTime ≤ b.endTime ∧
      b.duration = ((b.endTime : ℚ) - (b.startTime : ℚ)) / (1000 * 60) ∧ 1 ≤ b.duration) ∧
    (checkThreshold isHighBad sortedData thr).Pairwise
      (fun x y => x.startTime ≤ y.startTime) := by
  obtain ⟨i1, i2, i3, i4⟩ := breachLoop_spec isHighBad thr sortedData none hsorted (by simp)
  simp only [checkThreshold]
  split
  · next cb lastPoint h2 hl =>
    obtain ⟨j1, j2, j3⟩ := i3 cb h2
    have hstle : cb.startTime ≤ lastPoint.timestamp := by
      rcases j3 with ⟨cb0, hcb0, _⟩ | hmem
      · simp at hcb0
      · obtain ⟨q, hq, hqts⟩ := List.mem_map.mp hmem
        rw [← hqts]
        exact sorted_le_getLast? hsorted hl q hq
    constructor
    · intro b hb
      rcases List.mem_append.mp hb with h1 | h1
      · obtain ⟨k1, k2, k3, k4, _⟩ := i1 b h1
        exact ⟨k1, k2, k3, k4⟩
      · by_cases hkeep : 1 ≤ (closeBreach cb lastPoint.timestamp lastPoint.value true).duration
        · rw [if_pos hkeep] at h1
          rcases List.mem_cons.mp h1 with h3 | h3
          · subst h3
            exact ⟨j1, hstle, rfl, hkeep⟩
          · simp at h3
        · rw [if_neg hkeep] at h1
          simp at h1
    · refine List.pairwise_append.mpr ⟨i2, ?_, ?_⟩
      · split <;> simp
      · intro a ha b hb
        have hale : a.startTime ≤ cb.startTime := j2 a ha
        by_cases hkeep : 1 ≤ (closeBreach cb lastPoint.timestamp lastPoint.value true).duration
        · rw [if_pos hkeep] at hb
          rcases List.mem_cons.mp hb with h3 | h3
          · subst h3
            exact hale
          · simp at h3
        · rw [if_neg hkeep] at hb
          simp at hb
  · next h =>
    constructor
    · intro b hb
      obtain ⟨k1, k2, k3, k4, _⟩ := i1 b hb
      exact ⟨k1, k2, k3, k4⟩
    · exact i2

/-- C5: every breach interval returned by the breach detector satisfies
`endTime ≥ startTime`, `duration = (endTime - startTime) / 60000` and
`duration ≥ 1` (sub-minute excursions are discarded, also for the interval
still open at the end of the series); consequently a single-point excursion
above threshold lasting less than one minute of series time produces zero
intervals, as checked on a concrete three-point series. -/
theorem breachIntervals_wellformed (timeSeriesData : List TimePoint)
    (thresholds : MonitorThresholds) (isHighBad : Bool) :
    (∀ b ∈ (analyzeThresholdBreaches timeSeriesData thresholds isHighBad).breaches,
      b.startTime ≤ b.endTime ∧
      b.duration = ((b.endTime : ℚ) - (b.startTime : ℚ)) / 60000 ∧
      1 ≤ b.duration) ∧
    (analyzeThresholdBreaches [⟨0, 0⟩, ⟨30000, 100⟩, ⟨59000, 0⟩]
      ⟨some 50, none, none⟩ true).breaches = [] := by
  refine ⟨?_, by decide⟩
  intro b hb
  simp only [analyzeThresholdBreaches] at hb
  split at hb
  · simp at hb
  · simp only at hb
    obtain ⟨thr, _hthr, hmem⟩ := List.mem_flatMap.mp hb
    have hsorted : (timeSeriesData.insertionSort pointLE).Pairwise pointLE :=
      List.sorted_insertionSort pointLE timeSeriesData
    obtain ⟨_, h2, h3, h4⟩ :=
      (checkThreshold_spec isHighBad (timeSeriesData.insertionSort pointLE) thr hsorted).1 b hmem
    refine ⟨h2, ?_, h4⟩
    rw [h3]
    norm_num

/-- C5 witness: a two-minute excursion is kept, with well-formed fields. -/
theorem breachIntervals_wellformed_witness :
    ((⟨.Critical, 50, ">=", 0, 100, 100, 0, 120000, 0, 2, 50, false⟩ : Breach) ∈
      (analyzeThresholdBreaches [⟨0, 100⟩, ⟨120000, 0⟩]
        ⟨some 50, none, none⟩ true).breaches) ∧
    ((0 : ℤ) ≤ 120000 ∧ (2 : ℚ) = ((120000 : ℚ) - (0 : ℚ)) / 60000 ∧ (1 : ℚ) ≤ 2) := by
  have hmem : (⟨.Critical, 50, ">=", 0, 100, 100, 0, 120000, 0, 2, 50, false⟩ : Breach) ∈
      (analyzeThresholdBreaches [⟨0, 100⟩, ⟨120000, 0⟩]
        ⟨some 50, none, none⟩ true).breaches := by decide
  have h := (breachIntervals_wellformed [⟨0, 100⟩, ⟨120000, 0⟩]
    ⟨some 50, none, none⟩ true).1 _ hmem
  exact ⟨hmem, h⟩

/-- C10: with both thresholds configured, the detector's interval list is
grouped by level — the Critical pass's intervals all precede the Warning
pass's — each group ascending in `startTime`; and (concrete instance) the
list as a whole need not be globally sorted by `startTime`. -/
theorem breachList_grouped_by_level (timeSeriesData : List TimePoint)
    (c w : ℚ) (rcv : Option ℚ) (isHighBad : Bool) :
    (∃ cs ws,
      (analyzeThresholdBreaches timeSeriesData ⟨some c, some w, rcv⟩ isHighBad).breaches =
        cs ++ ws ∧
      (∀ b ∈ cs, b.level = Level.Critical) ∧
      (∀ b ∈ ws, b.level = Level.Warning) ∧
      cs.Pairwise (fun x y => x.startTime ≤ y.startTime) ∧
      ws.Pairwise (fun x y => x.startTime ≤ y.startTime)) ∧
    ¬ ((analyzeThresholdBreaches [⟨0, 15⟩, ⟨120000, 25⟩, ⟨240000, 0⟩]
        ⟨some 20, some 10, none⟩ true).breaches.Pairwise
      (fun a b => a.startTime ≤ b.startTime)) := by
  refine ⟨?_, by decide⟩
  have hsorted : (timeSeriesData.insertionSort pointLE).Pairwise pointLE :=
    List.sorted_insertionSort pointLE timeSeriesData
  have hc := checkThreshold_spec isHighBad (timeSeriesData.insertionSort pointLE)
    ⟨c, .Critical, if isHighBad then ">=" else "<="⟩ hsorted
  have hw := checkThreshold_spec isHighBad (timeSeriesData.insertionSort pointLE)
    ⟨w, .Warning, if isHighBad then ">=" else "<="⟩ hsorted
  simp only [analyzeThresholdBreaches]
  split
  · exact ⟨[], [], by simp, by simp, by simp, by simp, by simp⟩
  · refine ⟨checkThreshold isHighBad (timeSeriesData.insertionSort pointLE)
        ⟨c, .Critical, if isHighBad then ">=" else "<="⟩,
      checkThreshold isHighBad (timeSeriesData.insertionSort pointLE)
        ⟨w, .Warning, if isHighBad then ">=" else "<="⟩,
      ?_, ?_, ?_, hc.2, hw.2⟩
    · show (thresholdsToCheck ⟨some c, some w, rcv⟩ isHighBad).flatMap _ = _
      simp [thresholdsToCheck]
    · intro b hb
      exact (hc.1 b hb).1
    · intro b hb
      exact (hw.1 b hb).1

/-- C6: in the start-time-sorted breach list, a Warning interval immediately
followed by a Critical interval with the same rounded peak value is
suppressed from the externally visible (de-duplicated) list, while the
breach statistics are computed over the full non-deduplicated list and
still count the suppressed Warning. -/
theorem dedup_warning_suppressed (wb cb : Breach) (rest : List Breach)
    (hw : wb.level = Level.Warning) (hc : cb.level = Level.Critical)
    (hpeak : jsRoundQ wb.peakValue = jsRoundQ cb.peakValue) :
    dedupBreaches (wb :: cb :: rest) = dedupBreaches (cb :: rest) ∧
    (calculateBreachStats (wb :: cb :: rest)).totalBreaches =
      .num ((rest.length + 2 : ℕ) : ℚ) ∧
    (calculateBreachStats (wb :: cb :: rest)).warningBreaches =
      .num (((rest.filter fun b => decide (b.level = Level.Warning)).length + 1 : ℕ) : ℚ) := by
  refine ⟨?_, ?_, ?_⟩
  · show (if wb.level = Level.Warning ∧ cb.level = Level.Critical ∧
        jsRoundQ wb.peakValue = jsRoundQ cb.peakValue then
          dedupBreaches (cb :: rest)
        else wb :: dedupBreaches (cb :: rest)) = dedupBreaches (cb :: rest)
    rw [if_pos ⟨hw, hc, hpeak⟩]
  · show JSV.num (((wb :: cb :: rest).length : ℕ) : ℚ) = _
    simp
    ring
  · show JSV.num ((((wb :: cb :: rest).filter fun b =>
        decide (b.level = Level.Warning)).length : ℕ) : ℚ) = _
    have hwb : (decide (wb.level = Level.Warning)) = true := by simp [hw]
    have hcb : (decide (cb.level = Level.Warning)) = true ↔ False := by simp [hc]
    simp [List.filter_cons, hw, hc]

/-- C6 witness: a concrete Warning/Critical pair with equal rounded peaks
(10.2 and 10.4 both round to 10). -/
theorem dedup_warning_suppressed_witness :
    dedupBreaches [⟨.Warning, 10, ">=", 0, 11, 51/5, 0, 120000, 0, 2, 1/5, false⟩,
        ⟨.Critical, 20, ">=", 30000, 21, 52/5, 30000, 150000, 0, 2, 2/5, false⟩] =
      dedupBreaches [⟨.Critical, 20, ">=", 30000, 21, 52/5, 30000, 150000, 0, 2, 2/5, false⟩] ∧
    (calculateBreachStats [⟨.Warning, 10, ">=", 0, 11, 51/5, 0, 120000, 0, 2, 1/5, false⟩,
        ⟨.Critical, 20, ">=", 30000, 21, 52/5, 30000, 150000, 0, 2, 2/5, false⟩]).totalBreaches =
      .num (((0 + 2 : ℕ) : ℚ)) ∧
    (calculateBreachStats [⟨.Warning, 10, ">=", 0, 11, 51/5, 0, 120000, 0, 2, 1/5, false⟩,
        ⟨.Critical, 20, ">=", 30000, 21, 52/5, 30000, 150000, 0, 2, 2/5,
          false⟩]).warningBreaches =
      .num (((([] : List Breach).filter fun b =>
        decide (b.level = Level.Warning)).length + 1 : ℕ) : ℚ) :=
  dedup_warning_suppressed _ _ [] (by decide) (by decide) (by decide)

/-- C7 counterexample: for the windowed values `[-1, -3]` the pipeline's
volatility score is `-5` — the rounded mean is `-2` and the rounded std is
`1`, so `min(10, round((1 / -2) * 10)) = -5` — which is **not** in the
claimed range `[0, 10]`. -/
theorem volatility_counterexample :
    volatilityFromStats (calculateStatistics [-1, -3]) = .num (-5) ∧ ¬ ((0 : ℚ) ≤ -5) :=
  ⟨by decide, by decide⟩

/-- C7 (amended): the volatility score is
`Math.min(10, Math.round((std / mean) * 10))` computed from the **rounded**
`std` and `mean` stored in the statistics record; it is capped above at 10
but not clamped below 0; when the rounded mean is 0 it is 10 for positive
std (`Infinity` capped) and `NaN` — not 10 — when the std is 0 as well. -/
theorem volatility_amended (st : Stats) (s m : ℤ)
    (hs : st.std = .num (s : ℚ)) (hm : st.mean = .num (m : ℚ)) (hsn : 0 ≤ s) :
    volatilityFromStats st =
      (if m ≠ 0 then .num (min 10 ((jsRoundQ ((s : ℚ) / (m : ℚ) * 10) : ℤ) : ℚ))
       else if 0 < s then .num 10 else .nan) ∧
    (∀ q : ℚ, volatilityFromStats st = .num q → q ≤ 10) := by
  have hmain : volatilityFromStats st =
      (if m ≠ 0 then .num (min 10 ((jsRoundQ ((s : ℚ) / (m : ℚ) * 10) : ℤ) : ℚ))
       else if 0 < s then .num 10 else .nan) := by
    unfold volatilityFromStats
    rw [hs, hm]
    by_cases hm0 : m = 0
    · subst hm0
      by_cases hs0 : 0 < s
      · have hs0q : (0 : ℚ) < (s : ℚ) := by exact_mod_cast hs0
        simp [jsDiv, jsMul, jsRoundV, jsMin, JSV.toNum, hs0q, hs0]
      · have hs0e : s = 0 := by omega
        subst hs0e
        simp [jsDiv, jsMul, jsRoundV, jsMin, JSV.toNum]
    · have hm0q : ¬((m : ℚ) = 0) := by exact_mod_cast hm0
      simp [jsDiv, jsMul, jsRoundV, jsMin, jsRoundQ, JSV.toNum, hm0q, hm0]
  refine ⟨hmain, ?_⟩
  intro q hq
  rw [hmain] at hq
  split_ifs at hq with h1 h2
  · have : q = min 10 ((jsRoundQ ((s : ℚ) / (m : ℚ) * 10) : ℤ) : ℚ) :=
      (JSV.num.inj hq).symm
    rw [this]
    exact min_le_left _ _
  · have : q = 10 := (JSV.num.inj hq).symm
    rw [this]

/-- C7 witness for the amended theorem: the statistics of `[-1, -3]`
(rounded std 1, rounded mean -2) give score `min(10, round(-5)) = -5`. -/
theorem volatility_amended_witness :
    (calculateStatistics [-1, -3]).std = .num ((1 : ℤ) : ℚ) ∧
    (calculateStatistics [-1, -3]).mean = .num ((-2 : ℤ) : ℚ) ∧
    (volatilityFromStats (calculateStatistics [-1, -3]) =
      (if (-2 : ℤ) ≠ 0 then
        .num (min 10 ((jsRoundQ (((1 : ℤ) : ℚ) / ((-2 : ℤ) : ℚ) * 10) : ℤ) : ℚ))
       else if 0 < (1 : ℤ) then .num 10 else .nan)) :=
  ⟨by decide, by decide,
    (volatility_amended (calculateStatistics [-1, -3]) 1 (-2)
      (by decide) (by decide) (by decide)).1⟩

/-- C8: the recommendation strategy is selected by first-match priority —
Conservative when `volatilityScore > 7` or `sustainedBreaches > 3`, else
Balanced when `volatilityScore > 4` or `totalBreaches > 5`, else Standard
(refinement against the spec-worded rule on integer inputs); and raising
the volatility score from 3 to 9 with all other inputs fixed never moves
the selection from Conservative to Standard (at 9 it is always
Conservative). -/
theorem strategy_selection_spec :
    (∀ v s t : ℤ, selectStrategy (.num (v : ℚ)) (.num (s : ℚ)) (.num (t : ℚ)) =
      specStrategy v s t) ∧
    (∀ s t : JSV, ¬ (selectStrategy (.num 3) s t = .conservative ∧
        selectStrategy (.num 9) s t = .standard)) := by
  constructor
  · intro v s t
    have h7 : jsGtQ (.num (v : ℚ)) 7 = decide (7 < v) := by
      simp only [jsGtQ, JSV.toNum]
      exact decide_eq_decide.mpr (by exact_mod_cast Iff.rfl)
    have h4 : jsGtQ (.num (v : ℚ)) 4 = decide (4 < v) := by
      simp only [jsGtQ, JSV.toNum]
      exact decide_eq_decide.mpr (by exact_mod_cast Iff.rfl)
    have h3 : jsGtQ (.num (s : ℚ)) 3 = decide (3 < s) := by
      simp only [jsGtQ, JSV.toNum]
      exact decide_eq_decide.mpr (by exact_mod_cast Iff.rfl)
    have h5 : jsGtQ (.num (t : ℚ)) 5 = decide (5 < t) := by
      simp only [jsGtQ, JSV.toNum]
      exact decide_eq_decide.mpr (by exact_mod_cast Iff.rfl)
    simp only [selectStrategy, specStrategy, h7, h4, h3, h5]
    by_cases hc1 : 7 < v ∨ 3 < s
    · rw [if_pos (by rcases hc1 with h | h <;> simp [h]), if_pos hc1]
    · rw [if_neg (by
        intro hcon
        rcases Bool.or_eq_true_iff.mp hcon with h | h
        · exact hc1 (Or.inl (of_decide_eq_true h))
        · exact hc1 (Or.inr (of_decide_eq_true h))), if_neg hc1]
      by_cases hc2 : 4 < v ∨ 5 < t
      · rw [if_pos (by rcases hc2 with h | h <;> simp [h]), if_pos hc2]
      · rw [if_neg (by
          intro hcon
          rcases Bool.or_eq_true_iff.mp hcon with h | h
          · exact hc2 (Or.inl (of_decide_eq_true h))
          · exact hc2 (Or.inr (of_decide_eq_true h))), if_neg hc2]
  · intro s t hcon
    have h9 := hcon.2
    have : jsGtQ (.num 9) 7 = true := by decide
    simp [selectStrategy, this] at h9

/-- C9 counterexample: on an empty windowed series the breach detector
returns a plain empty result — `{ breaches: [], stats: {} }` — rather than
raising any `InsufficientData` signal, and the recommendation engine
applied to the empty summary produces a `NaN` critical threshold. -/
theorem insufficientData_counterexample :
    analyzeThresholdBreaches [] ⟨some 100, some 50, none⟩ true =
      ⟨[], emptyBreachStats⟩ ∧
    (generateRecommendations emptyStats emptyBreachStats (.num 0) true).critical = JSV.nan :=
  ⟨by decide, by decide⟩

/-- C9 (amended): there is no `InsufficientData` signal anywhere in the
pipeline: on an empty windowed series the breach detector returns the
empty result object for every threshold configuration and directionality,
and the recommendation engine applied to the empty summary returns `NaN`
critical, warning and recovery thresholds for every volatility input. -/
theorem insufficientData_amended (thresholds : MonitorThresholds) (isHighBad : Bool)
    (vol : JSV) :
    analyzeThresholdBreaches [] thresholds isHighBad = ⟨[], emptyBreachStats⟩ ∧
    (generateRecommendations emptyStats emptyBreachStats vol isHighBad).critical = JSV.nan ∧
    (generateRecommendations emptyStats emptyBreachStats vol isHighBad).warning = JSV.nan ∧
    (generateRecommendations emptyStats emptyBreachStats vol isHighBad).recovery = JSV.nan := by
  refine ⟨by simp [analyzeThresholdBreaches], ?_⟩
  cases hstrat : selectStrategy vol emptyBreachStats.sustainedBreaches
      emptyBreachStats.totalBreaches <;>
    cases isHighBad <;>
      simp [generateRecommendations, hstrat, emptyStats, jsMax, jsMin, jsMul, jsRoundV,
        JSV.toNum]

/-- C8 witness: concrete strategy selections. -/
theorem strategy_selection_spec_witness :
    (selectStrategy (.num ((3 : ℤ) : ℚ)) (.num ((0 : ℤ) : ℚ)) (.num ((0 : ℤ) : ℚ)) =
      specStrategy 3 0 0) ∧
    ¬ (selectStrategy (.num 3) (.num 0) (.num 0) = .conservative ∧
        selectStrategy (.num 9) (.num 0) (.num 0) = .standard) :=
  ⟨strategy_selection_spec.1 3 0 0, strategy_selection_spec.2 (.num 0) (.num 0)⟩
